import Mathlib

/-!
Verification development for the pyflagser wrapper.

The definitions below are a shallow embedding of `pyflagser/flagser.py`
(the Python API around the external flagser engine).  Matrix entries are
modelled as rationals, numpy arrays as lists, and the fallible numpy
operations as `Except`-valued functions.  The external engine
(`flagser_pybind.compute_homology`) is abstracted as an arbitrary function
on the argument record it receives; everything `flagser.py` computes before
invoking it is embedded faithfully.

The flag-file I/O helpers (`load_weighted_flag`, `save_weighted_flag`,
`load_unweighted_flag`, `_extract_unweighted_graph`) live in modules that
are not part of the sources at hand (only their tests are), so they are
modelled from the specification's description of the flag-file format;
those definitions carry a doc comment starting with `Modelled from the
spec:`.
-/

deriving instance DecidableEq for Except

namespace Pyflagser

/-- Matrix entry values (numpy numeric scalars) are modelled as rationals. -/
abbrev Weight := ℚ

/-- The numpy dtype of an input matrix: boolean, integer or floating. -/
inductive NpDtype
  | boolDt
  | intDt
  | floatDt
deriving DecidableEq

/-- Python identity test `flag_matrix.dtype is bool` (line 108 tests its
negation).  Both `numpy.ndarray.dtype` and the `dtype` attribute of a scipy
sparse matrix are `numpy.dtype` instances, and a `numpy.dtype` instance is
never the very object that is the builtin type `bool`, so the identity test
yields `false` for every dtype, the boolean one included (`d == bool` would
be true for the boolean dtype, `d is bool` is not). -/
def dtypeIsBuiltinBool : NpDtype → Bool := fun _ => false

/-- Errors the embedded pipeline can surface.  `indexError` is numpy's
`IndexError`, raised when a boolean mask is applied to an axis of a
different length.  `invalidInputError` is the `InvalidInputError` of the
specification's error taxonomy; nothing in `flagser.py` raises it — the
constructor exists so that statements about it can be written. -/
inductive PyError
  | indexError
  | invalidInputError
deriving DecidableEq

/-- A dense numpy ndarray: row-major list of rows together with its shape
and dtype. -/
structure DenseMatrix where
  rows : ℕ
  cols : ℕ
  data : List (List Weight)
  dtype : NpDtype
deriving DecidableEq

/-- Shape consistency of a dense matrix: `rows` rows, each of length
`cols`. -/
def DenseMatrix.Wf (m : DenseMatrix) : Prop :=
  m.data.length = m.rows ∧ ∀ r ∈ m.data, r.length = m.cols

instance (m : DenseMatrix) : Decidable m.Wf := by
  unfold DenseMatrix.Wf; infer_instance

/-- The entry of a dense matrix at row `i`, column `j`. -/
def DenseMatrix.cell (m : DenseMatrix) (i j : ℕ) : Weight :=
  (m.data.getD i []).getD j 0

/-- numpy `.diagonal()` on a 2-D array: the entries `(i, i)` for
`i < min rows cols`. -/
def DenseMatrix.diagonal (m : DenseMatrix) : List Weight :=
  (List.range (min m.rows m.cols)).map fun i => m.cell i i

/-- numpy `.flat` on a 2-D array: row-major flattening. -/
def DenseMatrix.flat (m : DenseMatrix) : List Weight := m.data.flatten

/-- A scipy sparse matrix in coordinate form: parallel `row`, `col`,
`data` arrays of the explicitly stored entries, plus shape and dtype. -/
structure CooMatrix where
  rows : ℕ
  cols : ℕ
  row : List ℕ
  col : List ℕ
  data : List Weight
  dtype : NpDtype
deriving DecidableEq

/-- Consistency of a coo matrix: the three storage arrays have one entry
per stored value. -/
def CooMatrix.Wf (m : CooMatrix) : Prop :=
  m.row.length = m.data.length ∧ m.col.length = m.data.length

instance (m : CooMatrix) : Decidable m.Wf := by
  unfold CooMatrix.Wf; infer_instance

/-- The stored entries of a coo matrix as `(row, col, value)` triples, in
storage order. -/
def CooMatrix.entries (m : CooMatrix) : List (ℕ × ℕ × Weight) :=
  m.row.zip (m.col.zip m.data)

/-- scipy sparse `.diagonal()`: an array of length `min rows cols` whose
entry `k` is the sum of the stored values at position `(k, k)` (scipy sums
duplicate entries), hence `0` when nothing is stored there. -/
def CooMatrix.diagonal (m : CooMatrix) : List Weight :=
  (List.range (min m.rows m.cols)).map fun k =>
    ((m.entries.filter fun e => decide (e.1 = k ∧ e.2.1 = k)).map
      fun e => e.2.2).sum

/-- The input accepted by flagser: a dense ndarray or a scipy sparse
matrix (line 95 branches on `type(flag_matrix) is np.ndarray`). -/
inductive FlagMatrix
  | dense (m : DenseMatrix)
  | coo (m : CooMatrix)
deriving DecidableEq

/-- The dtype attribute of either kind of input matrix. -/
def FlagMatrix.dtype : FlagMatrix → NpDtype
  | .dense m => m.dtype
  | .coo m => m.dtype

/-- Line 90: `vertices = np.asarray(flag_matrix.diagonal()).copy()`. -/
def flagVertices : FlagMatrix → List Weight
  | .dense m => m.diagonal
  | .coo m => m.diagonal

/-- Line 96: `np.indices(flag_matrix.shape)[0].flat`, the row index of each
cell in row-major order. -/
def rowIndicesFlat (rows cols : ℕ) : List ℕ :=
  (List.range rows).flatMap fun i => List.replicate cols i

/-- Line 97: `np.indices(flag_matrix.shape)[1].flat`, the column index of
each cell in row-major order. -/
def colIndicesFlat (rows cols : ℕ) : List ℕ :=
  (List.range rows).flatMap fun _ => List.range cols

/-- Lines 99-100: `np.logical_not(np.eye(k, dtype=bool).flat)`, true at the
off-diagonal positions of a k×k grid in row-major order. -/
def eyeOffDiagMask (k : ℕ) : List Bool :=
  (List.range k).flatMap fun i => (List.range k).map fun j => decide (i ≠ j)

/-- Lines 105-106: a mask of length `nnz` that is true except where
`row == col`. -/
def cooOffDiagMask (m : CooMatrix) : List Bool :=
  (m.row.zip m.col).map fun p => decide (p.1 ≠ p.2)

/-- numpy boolean-mask indexing `a[mask]`: the mask must have exactly the
length of the indexed axis, otherwise an `IndexError` is raised; on success
it keeps the positions where the mask is true, in order. -/
def booleanSelect {α : Type} (xs : List α) (mask : List Bool) :
    Except PyError (List α) :=
  if xs.length = mask.length then
    .ok (((xs.zip mask).filter fun p => p.2).map fun p => p.1)
  else
    .error .indexError

/-- The edge array handed to the engine: `np.vstack([...]).T` of three
columns (weighted case, line 109-111) or of two columns (boolean case,
line 112-114). -/
inductive EdgeList
  | triples (l : List (ℕ × ℕ × Weight))
  | pairs (l : List (ℕ × ℕ))
deriving DecidableEq

/-- Lines 95-114 of `flagser.py`: build the edge array.  The dense branch
masks the row-major cell grid with the off-diagonal mask of size
`len(vertices)`; the sparse branch masks the stored coordinate arrays
with the `row ≠ col` mask.  Line 108 (`flag_matrix.dtype is not bool`)
selects triples versus pairs. -/
def edgesOf (mat : FlagMatrix) : Except PyError EdgeList :=
  match mat with
  | .dense m =>
      let row := rowIndicesFlat m.rows m.cols
      let column := colIndicesFlat m.rows m.cols
      let data := m.flat
      let mask := eyeOffDiagMask (flagVertices (.dense m)).length
      if dtypeIsBuiltinBool m.dtype = false then do
        let r ← booleanSelect row mask
        let c ← booleanSelect column mask
        let d ← booleanSelect data mask
        pure (.triples (r.zip (c.zip d)))
      else do
        let r ← booleanSelect row mask
        let c ← booleanSelect column mask
        pure (.pairs (r.zip c))
  | .coo m =>
      let mask := cooOffDiagMask m
      if dtypeIsBuiltinBool m.dtype = false then do
        let r ← booleanSelect m.row mask
        let c ← booleanSelect m.col mask
        let d ← booleanSelect m.data mask
        pure (.triples (r.zip (c.zip d)))
      else do
        let r ← booleanSelect m.row mask
        let c ← booleanSelect m.col mask
        pure (.pairs (r.zip c))

/-- The `max_dimension` argument: `np.inf` (the default) or an integer. -/
inductive MaxDimArg
  | inf
  | fin (k : Int)
deriving DecidableEq

/-- Lines 116-119: `np.inf` becomes the sentinel `-1`, any other value is
passed through unchanged. -/
def coerceMaxDimension : MaxDimArg → Int
  | .inf => -1
  | .fin k => k

/-- Lines 92-93: `if not approximation: approximation = -1`.  For a Python
int, `not a` is true exactly when `a == 0`. -/
def normalizeApproximation (a : Int) : Int := if a = 0 then -1 else a

/-- A console warning printed by flagser; lines 122-123 print the
unrecognized filtration name and the list of available algorithms. -/
inductive Warning
  | unrecognizedFiltration (given : String) (available : List String)
deriving DecidableEq

/-- Lines 121-124: a filtration name not in `implemented_filtrations` is
replaced by `"max"` after printing a warning; a recognized name is kept
and nothing is printed. -/
def resolveFiltration (impl : List String) (filtration : String) :
    String × List Warning :=
  if filtration ∈ impl then (filtration, [])
  else ("max", [.unrecognizedFiltration filtration impl])

/-- The argument tuple of the engine call
`compute_homology(vertices, edges, min_dimension, _max_dimension, directed,
coeff, approximation, filtration)` (lines 126-127). -/
structure EngineArgs where
  vertices : List Weight
  edges : EdgeList
  minDimension : Int
  maxDimension : Int
  directed : Bool
  coeff : Int
  approximation : Int
  filtration : String
deriving DecidableEq

/-- Lines 90-127 of `flagser.py` up to (and excluding) the engine call:
compute the vertex array, normalize the approximation, build the edge
array, coerce the maximal dimension, resolve the filtration, and assemble
the engine arguments together with the warnings printed along the way. -/
def flagserArgs (impl : List String) (mat : FlagMatrix) (minDimension : Int)
    (maxDimension : MaxDimArg) (directed : Bool) (filtration : String)
    (coeff : Int) (approximation : Int) :
    Except PyError (EngineArgs × List Warning) := do
  let vertices := flagVertices mat
  let approx := normalizeApproximation approximation
  let edges ← edgesOf mat
  let maxDim := coerceMaxDimension maxDimension
  let filt := (resolveFiltration impl filtration).1
  let warnings := (resolveFiltration impl filtration).2
  pure (⟨vertices, edges, minDimension, maxDim, directed, coeff, approx,
    filt⟩, warnings)

/-- The whole `flagser` call, with the external engine
(`flagser_pybind.compute_homology` plus the result marshaling of lines
129-137) abstracted as an arbitrary function of the argument record. -/
def flagser {A : Type} (engine : EngineArgs → A) (impl : List String)
    (mat : FlagMatrix) (minDimension : Int) (maxDimension : MaxDimArg)
    (directed : Bool) (filtration : String) (coeff : Int)
    (approximation : Int) : Except PyError (A × List Warning) :=
  (flagserArgs impl mat minDimension maxDimension directed filtration coeff
      approximation).map fun p => (engine p.1, p.2)

/-! ### State-threading model of the call, for the frame property

Each numpy/scipy primitive that `flagser` applies to its input matrix is
modelled with an explicit state-passing signature returning the matrix it
leaves behind, according to that primitive's documented semantics; the
composition mirrors the source line by line. -/

/-- Line 90: `.diagonal()` returns a read-only view (numpy) or a fresh
array (scipy) and `.copy()` allocates a fresh array; the input matrix is
left unchanged. -/
def diagonalCopySt (mat : FlagMatrix) : List Weight × FlagMatrix :=
  (flagVertices mat, mat)

/-- Lines 95-114: `np.indices` builds fresh index arrays, `.flat` is a
read-only iteration, `.tocoo()` builds a converted copy, boolean masking
and `np.vstack` allocate fresh arrays; the input matrix is only read. -/
def edgesOfSt (mat : FlagMatrix) : Except PyError EdgeList × FlagMatrix :=
  (edgesOf mat, mat)

/-- `flagserArgs` with the input matrix threaded through every primitive
that touches it, returning the matrix as it stands after the call. -/
def flagserArgsTrace (impl : List String) (mat : FlagMatrix)
    (minDimension : Int) (maxDimension : MaxDimArg) (directed : Bool)
    (filtration : String) (coeff : Int) (approximation : Int) :
    Except PyError (EngineArgs × List Warning) × FlagMatrix :=
  let s0 := diagonalCopySt mat
  let vertices := s0.1
  let approx := normalizeApproximation approximation
  let s1 := edgesOfSt s0.2
  match s1.1 with
  | .error e => (.error e, s1.2)
  | .ok edges =>
      let maxDim := coerceMaxDimension maxDimension
      let filt := (resolveFiltration impl filtration).1
      let warnings := (resolveFiltration impl filtration).2
      (.ok (⟨vertices, edges, minDimension, maxDim, directed, coeff, approx,
        filt⟩, warnings), s1.2)

/-! ### Flag files

`load_weighted_flag`, `save_weighted_flag`, `load_unweighted_flag` and
`_extract_unweighted_graph` live in `pyflagser/flagio.py` and
`pyflagser/_utils.py`, which are not among the sources at hand (only their
tests are), so they are modelled from the specification. -/

/-- Modelled from the spec: a weighted flag file (`flagio.py`), persisting
an adjacency matrix textually as "a vertex-weight line followed by edge
lines `(source, target, weight)`". -/
structure FlagFile where
  vertexLine : List Weight
  edgeLines : List (ℕ × ℕ × Weight)
deriving DecidableEq

/-- A coo matrix assembled from a list of entries: the parallel coordinate
and value arrays are the columns of the list. -/
def CooMatrix.ofEntries (rows cols : ℕ) (dtype : NpDtype)
    (es : List (ℕ × ℕ × Weight)) : CooMatrix :=
  { rows := rows, cols := cols
    row := es.map fun e => e.1
    col := es.map fun e => e.2.1
    data := es.map fun e => e.2.2
    dtype := dtype }

/-- The diagonal entries `(i, i, w_i)` built from a vertex-weight list
starting at index `i`. -/
def diagTriples : ℕ → List Weight → List (ℕ × ℕ × Weight)
  | _, [] => []
  | i, w :: ws => (i, i, w) :: diagTriples (i + 1) ws

/-- Modelled from the spec: `load_weighted_flag` (sparse path) builds an
n×n coo adjacency matrix whose diagonal stores the vertex weights of the
vertex line and whose off-diagonal stored entries are the edge lines, in
file order. -/
def loadWeightedFlag (f : FlagFile) : CooMatrix :=
  CooMatrix.ofEntries f.vertexLine.length f.vertexLine.length .floatDt
    (diagTriples 0 f.vertexLine ++ f.edgeLines)

/-- Modelled from the spec: `save_weighted_flag` writes the vertex-weight
line from the matrix diagonal and one edge line per stored off-diagonal
entry, in storage order. -/
def saveWeightedFlag (m : CooMatrix) : FlagFile :=
  { vertexLine := m.diagonal
    edgeLines := m.entries.filter fun e => decide (e.1 ≠ e.2.1) }

/-- Modelled from the spec: an unweighted flag file: the vertex line only
determines the number of vertices (all weights zero), the edge lines are
`(source, target)` pairs. -/
structure UnweightedFlagFile where
  numVertices : ℕ
  edgeLines : List (ℕ × ℕ)
deriving DecidableEq

/-- Modelled from the spec: `load_unweighted_flag` with `fmt` dense builds
an n×n boolean matrix with a one exactly at each listed edge position. -/
def loadUnweightedFlagDense (f : UnweightedFlagFile) : DenseMatrix :=
  { rows := f.numVertices, cols := f.numVertices
    data := (List.range f.numVertices).map fun i =>
      (List.range f.numVertices).map fun j =>
        if (i, j) ∈ f.edgeLines then 1 else 0
    dtype := .boolDt }

/-- Modelled from the spec: `load_unweighted_flag` with `fmt` coo stores
one entry of value one per edge line, in file order. -/
def loadUnweightedFlagCoo (f : UnweightedFlagFile) : CooMatrix :=
  CooMatrix.ofEntries f.numVertices f.numVertices .boolDt
    (f.edgeLines.map fun e => (e.1, e.2, 1))

/-- Modelled from the spec: `_extract_unweighted_graph` returns the vertex
indices `0, ..., n-1` and the edges as `(source, target)` pairs: for a
dense matrix the off-diagonal cells holding a non-zero value, in row-major
order; for a coo matrix the stored off-diagonal entries with non-zero
value, in storage order. -/
def extractUnweightedGraph : FlagMatrix → List ℕ × List (ℕ × ℕ)
  | .dense m =>
      (List.range m.rows,
        (((List.range m.rows).flatMap fun i =>
            (List.range m.cols).map fun j => (i, j)).filter fun p =>
          decide (p.1 ≠ p.2) && decide (m.cell p.1 p.2 ≠ 0)))
  | .coo m =>
      (List.range m.rows,
        ((m.entries.filter fun e =>
            decide (e.1 ≠ e.2.1) && decide (e.2.2 ≠ 0)).map
          fun e => (e.1, e.2.1)))

/-! ### Derived notions and concrete fixtures -/

/-- The cells of a rows×cols grid in row-major order. -/
def cellPairs (rows cols : ℕ) : List (ℕ × ℕ) :=
  (List.range rows).flatMap fun i => (List.range cols).map fun j => (i, j)

/-- The off-diagonal cells of a square dense matrix with their values, in
row-major order: the edge triples the dense branch produces. -/
def denseOffDiagTriples (m : DenseMatrix) : List (ℕ × ℕ × Weight) :=
  ((cellPairs m.rows m.cols).filter fun p => decide (p.1 ≠ p.2)).map
    fun p => (p.1, p.2, m.cell p.1 p.2)

/-- No pair in the edge array starts and ends at the same vertex. -/
def EdgeListNoSelfLoop : EdgeList → Prop
  | .triples l => ∀ e ∈ l, e.1 ≠ e.2.1
  | .pairs l => ∀ e ∈ l, e.1 ≠ e.2

/-- Row-major (lexicographic) strict order on index pairs. -/
def pairLexLt (a b : ℕ × ℕ) : Prop :=
  a.1 < b.1 ∨ (a.1 = b.1 ∧ a.2 < b.2)

instance : DecidableRel pairLexLt := fun a b => by
  unfold pairLexLt
  infer_instance

/-- A concrete square dense integer matrix, with an explicit off-diagonal
zero. -/
def exDense : DenseMatrix := ⟨2, 2, [[5, 0], [3, 7]], .intDt⟩

/-- The engine arguments produced for `exDense` with the default
parameters. -/
def exDenseArgs : EngineArgs :=
  ⟨[5, 7], .triples [(0, 1, 0), (1, 0, 3)], 0, -1, true, 2, -1, "max"⟩

/-- A concrete square coo matrix with an explicitly stored off-diagonal
zero at (1, 2), nothing stored on the diagonal, and nothing stored
anywhere else. -/
def exCoo : CooMatrix := ⟨3, 3, [0, 1], [1, 2], [4, 0], .floatDt⟩

/-- The engine arguments produced for `exCoo` with the default
parameters. -/
def exCooArgs : EngineArgs :=
  ⟨[0, 0, 0], .triples [(0, 1, 4), (1, 2, 0)], 0, -1, true, 2, -1, "max"⟩

/-- A concrete non-square (2×3) coo matrix. -/
def exCooNonSquare : CooMatrix := ⟨2, 3, [0, 1], [2, 0], [5, 6], .floatDt⟩

/-- The engine arguments produced for `exCooNonSquare`: the call reaches
the engine although the matrix is not square. -/
def exCooNonSquareArgs : EngineArgs :=
  ⟨[0, 0], .triples [(0, 2, 5), (1, 0, 6)], 0, -1, true, 2, -1, "max"⟩

/-- A concrete non-square (2×3) dense matrix. -/
def exDenseNonSquare : DenseMatrix := ⟨2, 3, [[1, 2, 3], [4, 5, 6]], .floatDt⟩

/-- A concrete boolean-dtype dense adjacency matrix (False on the
diagonal, True off it). -/
def exBoolDense : DenseMatrix := ⟨2, 2, [[0, 1], [1, 0]], .boolDt⟩

/-- A concrete weighted flag file with a zero-weight edge line. -/
def exFlagFile : FlagFile := ⟨[1, 2], [(0, 1, 3), (1, 0, 0)]⟩

/-- A concrete unweighted flag file on three vertices, edge lines in
row-major order. -/
def exUFlagFile : UnweightedFlagFile := ⟨3, [(0, 1), (0, 2), (1, 2)]⟩

/-! ### Helper lemmas -/

lemma except_ok_bind {ε α β : Type} (a : α) (f : α → Except ε β) :
    (Except.ok a >>= f) = f a := rfl

/-- Boolean masking of a mapped list by a mapped mask over the same base
list is a filter. -/
lemma booleanSelect_map {α β : Type} (base : List β) (f : β → α)
    (p : β → Bool) :
    booleanSelect (base.map f) (base.map p) =
      .ok ((base.filter p).map f) := by
  unfold booleanSelect
  rw [if_pos (by simp)]
  simp [List.zip_map', List.filter_map, Function.comp_def]

lemma map_getD_range {α : Type} (v : List α) (d : α) :
    (List.range v.length).map (fun k => v.getD k d) = v := by
  apply List.ext_getElem
  · simp
  · intro n h1 h2
    simp only [List.getElem_map, List.getElem_range]
    exact List.getD_eq_getElem v d h2

lemma flatten_eq_flatMap_range {α : Type} (l : List (List α)) :
    l.flatten = (List.range l.length).flatMap fun i => l.getD i [] := by
  induction l with
  | nil => simp
  | cons a l ih =>
    simp only [List.flatten_cons, List.length_cons, List.range_succ_eq_map,
      List.flatMap_cons, List.flatMap_map, List.getD_cons_zero,
      List.getD_cons_succ]
    rw [ih]

lemma rowIndicesFlat_eq_map (rows cols : ℕ) :
    rowIndicesFlat rows cols = (cellPairs rows cols).map fun p => p.1 := by
  simp [rowIndicesFlat, cellPairs, List.map_flatMap, List.map_map,
    Function.comp_def, List.map_const']

lemma colIndicesFlat_eq_map (rows cols : ℕ) :
    colIndicesFlat rows cols = (cellPairs rows cols).map fun p => p.2 := by
  simp [colIndicesFlat, cellPairs, List.map_flatMap, List.map_map,
    Function.comp_def]

lemma eyeOffDiagMask_eq_map (k : ℕ) :
    eyeOffDiagMask k = (cellPairs k k).map fun p => decide (p.1 ≠ p.2) := by
  simp [eyeOffDiagMask, cellPairs, List.map_flatMap, List.map_map,
    Function.comp_def]

lemma flat_eq_map_cellPairs (m : DenseMatrix) (wf : m.Wf) :
    m.flat = (cellPairs m.rows m.cols).map fun p => m.cell p.1 p.2 := by
  obtain ⟨hlen, hrow⟩ := wf
  unfold DenseMatrix.flat cellPairs
  rw [flatten_eq_flatMap_range, hlen, List.map_flatMap]
  apply List.flatMap_congr
  intro i hi
  rw [List.mem_range] at hi
  have hi' : i < m.data.length := by omega
  have hr : (m.data.getD i []).length = m.cols := by
    rw [List.getD_eq_getElem _ _ hi']
    exact hrow _ (List.getElem_mem hi')
  simp only [List.map_map, Function.comp_def]
  show m.data.getD i [] = (List.range m.cols).map fun j => m.cell i j
  unfold DenseMatrix.cell
  rw [← hr, map_getD_range]

lemma length_flagVertices_dense (m : DenseMatrix) :
    (flagVertices (.dense m)).length = min m.rows m.cols := by
  simp [flagVertices, DenseMatrix.diagonal]

lemma length_flagVertices_coo (m : CooMatrix) :
    (flagVertices (.coo m)).length = min m.rows m.cols := by
  simp [flagVertices, CooMatrix.diagonal]

/-- Dense square case of the edge extraction: every off-diagonal cell,
with its value, in row-major order. -/
lemma edgesOf_dense_eq (m : DenseMatrix) (h : m.cols = m.rows)
    (wf : m.Wf) :
    edgesOf (.dense m) = .ok (.triples (denseOffDiagTriples m)) := by
  have hv : (flagVertices (.dense m)).length = m.rows := by
    rw [length_flagVertices_dense, h, Nat.min_self]
  have hflat := flat_eq_map_cellPairs m wf
  simp only [edgesOf, dtypeIsBuiltinBool, if_pos]
  rw [hv, rowIndicesFlat_eq_map, colIndicesFlat_eq_map, hflat, h,
    eyeOffDiagMask_eq_map, booleanSelect_map, booleanSelect_map,
    booleanSelect_map, except_ok_bind, except_ok_bind, except_ok_bind]
  show Except.ok (EdgeList.triples _) = _
  rw [List.zip_map', List.zip_map']
  unfold denseOffDiagTriples
  rw [h]

lemma entries_length_eq (m : CooMatrix) (wf : m.Wf) :
    m.entries.length = m.data.length := by
  obtain ⟨h1, h2⟩ := wf
  simp [CooMatrix.entries, h1, h2]

lemma row_eq_map_entries (m : CooMatrix) (wf : m.Wf) :
    m.row = m.entries.map fun e => e.1 := by
  obtain ⟨h1, h2⟩ := wf
  unfold CooMatrix.entries
  rw [List.map_fst_zip]
  simp [h1, h2]

lemma snd_entries (m : CooMatrix) (wf : m.Wf) :
    m.entries.map (fun e => e.2) = m.col.zip m.data := by
  obtain ⟨h1, h2⟩ := wf
  unfold CooMatrix.entries
  rw [List.map_snd_zip]
  simp [h1, h2]

lemma col_eq_map_entries (m : CooMatrix) (wf : m.Wf) :
    m.col = m.entries.map fun e => e.2.1 := by
  obtain ⟨h1, h2⟩ := wf
  have h4 : (m.entries.map fun e => e.2).map (fun p => p.1) = m.col := by
    rw [snd_entries m ⟨h1, h2⟩, List.map_fst_zip]
    omega
  rw [← h4, List.map_map]
  simp [Function.comp_def]

lemma data_eq_map_entries (m : CooMatrix) (wf : m.Wf) :
    m.data = m.entries.map fun e => e.2.2 := by
  obtain ⟨h1, h2⟩ := wf
  have h4 : (m.entries.map fun e => e.2).map (fun p => p.2) = m.data := by
    rw [snd_entries m ⟨h1, h2⟩, List.map_snd_zip]
    omega
  rw [← h4, List.map_map]
  simp [Function.comp_def]

lemma cooOffDiagMask_eq_map (m : CooMatrix) (wf : m.Wf) :
    cooOffDiagMask m = m.entries.map fun e => decide (e.1 ≠ e.2.1) := by
  unfold cooOffDiagMask
  rw [row_eq_map_entries m wf, col_eq_map_entries m wf, List.zip_map',
    List.map_map]
  rfl

/-- Sparse case of the edge extraction: exactly the stored off-diagonal
entries, in storage order. -/
lemma edgesOf_coo_eq (m : CooMatrix) (wf : m.Wf) :
    edgesOf (.coo m) =
      .ok (.triples (m.entries.filter fun e => decide (e.1 ≠ e.2.1))) := by
  simp only [edgesOf, dtypeIsBuiltinBool, if_pos]
  rw [cooOffDiagMask_eq_map m wf]
  conv_lhs =>
    rw [row_eq_map_entries m wf, col_eq_map_entries m wf,
      data_eq_map_entries m wf]
  rw [booleanSelect_map, booleanSelect_map, booleanSelect_map,
    except_ok_bind, except_ok_bind, except_ok_bind]
  show Except.ok (EdgeList.triples _) = _
  rw [List.zip_map', List.zip_map']
  simp [Prod.mk.eta]

/-- Unfolding of `flagserArgs` when the edge extraction succeeds. -/
lemma flagserArgs_eq_ok (impl : List String) (mat : FlagMatrix)
    (minDimension : Int) (maxDimension : MaxDimArg) (directed : Bool)
    (filtration : String) (coeff : Int) (approximation : Int)
    (e : EdgeList) (h : edgesOf mat = .ok e) :
    flagserArgs impl mat minDimension maxDimension directed filtration coeff
        approximation =
      .ok (⟨flagVertices mat, e, minDimension,
        coerceMaxDimension maxDimension, directed, coeff,
        normalizeApproximation approximation,
        (resolveFiltration impl filtration).1⟩,
        (resolveFiltration impl filtration).2) := by
  unfold flagserArgs
  rw [h, except_ok_bind]
  rfl

/-- Unfolding of `flagserArgs` when the edge extraction fails. -/
lemma flagserArgs_eq_error (impl : List String) (mat : FlagMatrix)
    (minDimension : Int) (maxDimension : MaxDimArg) (directed : Bool)
    (filtration : String) (coeff : Int) (approximation : Int)
    (err : PyError) (h : edgesOf mat = .error err) :
    flagserArgs impl mat minDimension maxDimension directed filtration coeff
        approximation = .error err := by
  unfold flagserArgs
  rw [h]
  rfl

lemma except_error_bind {ε α β : Type} (e : ε) (f : α → Except ε β) :
    (Except.error e >>= f) = .error e := rfl

lemma booleanSelect_of_length_ne {α : Type} (xs : List α) (mask : List Bool)
    (h : xs.length ≠ mask.length) :
    booleanSelect xs mask = .error .indexError := by
  unfold booleanSelect
  rw [if_neg h]

lemma length_rowIndicesFlat (rows cols : ℕ) :
    (rowIndicesFlat rows cols).length = rows * cols := by
  unfold rowIndicesFlat
  rw [List.length_flatMap]
  simp [Function.comp_def, List.map_const', List.sum_replicate, mul_comm]

lemma length_eyeOffDiagMask (k : ℕ) :
    (eyeOffDiagMask k).length = k * k := by
  unfold eyeOffDiagMask
  rw [List.length_flatMap]
  simp [Function.comp_def, List.map_const', List.sum_replicate]

lemma mem_cellPairs (rows cols : ℕ) (p : ℕ × ℕ) :
    p ∈ cellPairs rows cols ↔ p.1 < rows ∧ p.2 < cols := by
  unfold cellPairs
  constructor
  · intro h
    obtain ⟨i, hi, h2⟩ := List.mem_flatMap.mp h
    obtain ⟨j, hj, h3⟩ := List.mem_map.mp h2
    rw [List.mem_range] at hi hj
    rw [← h3]
    exact ⟨hi, hj⟩
  · intro ⟨h1, h2⟩
    refine List.mem_flatMap.mpr ⟨p.1, List.mem_range.mpr h1, ?_⟩
    exact List.mem_map.mpr ⟨p.2, List.mem_range.mpr h2, by simp⟩

lemma length_filter_ne_range (n i : ℕ) (hi : i < n) :
    ((List.range n).filter fun j => decide (i ≠ j)).length = n - 1 := by
  have hsplit := List.length_eq_countP_add_countP
    (fun j => decide (i ≠ j)) (List.range n)
  have hcount : List.countP (fun a => decide ¬(decide (i ≠ a) = true))
      (List.range n) = 1 := by
    have hc : (List.range n).count i = 1 :=
      List.count_eq_one_of_mem (List.nodup_range n) (List.mem_range.mpr hi)
    rw [← hc, List.count]
    apply List.countP_congr
    intro a _
    by_cases h : i = a
    · subst h
      simp
    · have h' : ¬(a = i) := fun hh => h hh.symm
      simp [h, h']
  rw [List.countP_eq_length_filter] at hsplit
  rw [hcount, List.length_range] at hsplit
  omega

lemma length_denseOffDiagTriples (m : DenseMatrix) (h : m.cols = m.rows) :
    (denseOffDiagTriples m).length = m.rows * (m.rows - 1) := by
  unfold denseOffDiagTriples cellPairs
  rw [h, List.length_map, List.filter_flatMap, List.length_flatMap]
  have : ∀ i ∈ List.range m.rows,
      ((List.length ∘ fun i => List.filter (fun p => decide (p.1 ≠ p.2))
        ((List.range m.rows).map fun j => (i, j))) i) = m.rows - 1 := by
    intro i hi
    rw [List.mem_range] at hi
    simp only [Function.comp_def, List.filter_map, List.length_map]
    exact length_filter_ne_range m.rows i hi
  rw [List.map_congr_left this, List.map_const', List.length_range,
    List.sum_replicate, smul_eq_mul]

lemma mem_denseOffDiagTriples (m : DenseMatrix) (i j : ℕ) (hi : i < m.rows)
    (hj : j < m.cols) (hij : i ≠ j) :
    (i, j, m.cell i j) ∈ denseOffDiagTriples m := by
  unfold denseOffDiagTriples
  refine List.mem_map.mpr ⟨(i, j), ?_, rfl⟩
  refine List.mem_filter.mpr ⟨?_, by simpa using hij⟩
  exact (mem_cellPairs m.rows m.cols (i, j)).mpr ⟨hi, hj⟩

/-- The dense branch raises numpy's IndexError on a non-square matrix with
both dimensions positive: the off-diagonal mask has the square of the
diagonal length, the flattened index arrays have rows·cols entries. -/
lemma edgesOf_dense_error (m : DenseMatrix) (h : m.rows ≠ m.cols)
    (h1 : 0 < m.rows) (h2 : 0 < m.cols) :
    edgesOf (.dense m) = .error .indexError := by
  have hlen : (rowIndicesFlat m.rows m.cols).length ≠
      (eyeOffDiagMask (flagVertices (.dense m)).length).length := by
    rw [length_rowIndicesFlat, length_flagVertices_dense,
      length_eyeOffDiagMask]
    rcases lt_or_gt_of_ne h with hlt | hgt
    · rw [Nat.min_eq_left (le_of_lt hlt)]
      exact Ne.symm (ne_of_lt (mul_lt_mul_of_pos_left hlt h1))
    · rw [Nat.min_eq_right (le_of_lt hgt)]
      exact Ne.symm (ne_of_lt (mul_lt_mul_of_pos_right hgt h2))
  simp only [edgesOf, dtypeIsBuiltinBool, if_pos]
  rw [booleanSelect_of_length_ne _ _ hlen, except_error_bind]

lemma getD_map_range {α : Type} (f : ℕ → α) (n i : ℕ) (h : i < n) (d : α) :
    ((List.range n).map f).getD i d = f i := by
  rw [List.getD_eq_getElem _ _ (by simpa using h)]
  simp

lemma entries_ofEntries (rows cols : ℕ) (dtype : NpDtype)
    (es : List (ℕ × ℕ × Weight)) :
    (CooMatrix.ofEntries rows cols dtype es).entries = es := by
  simp [CooMatrix.ofEntries, CooMatrix.entries, List.zip_map', Prod.mk.eta]

lemma length_diagTriples (i : ℕ) (ws : List Weight) :
    (diagTriples i ws).length = ws.length := by
  induction ws generalizing i with
  | nil => rfl
  | cons w ws ih => simp [diagTriples, ih]

lemma filter_diag_diagTriples (ws : List Weight) (i k : ℕ) :
    ((diagTriples i ws).filter fun e => decide (e.1 = k ∧ e.2.1 = k)) =
      if i ≤ k ∧ k < i + ws.length then [(k, k, ws.getD (k - i) 0)]
      else [] := by
  induction ws generalizing i with
  | nil =>
    simp only [diagTriples, List.filter_nil, List.length_nil]
    rw [if_neg (by omega)]
  | cons w ws ih =>
    simp only [diagTriples, List.filter_cons]
    by_cases hik : i = k
    · subst hik
      rw [if_pos (by simp), ih (i + 1), if_neg (by omega),
        if_pos (by simp only [List.length_cons]; omega)]
      simp
    · rw [if_neg (by simp [hik]), ih (i + 1)]
      by_cases hin : i + 1 ≤ k ∧ k < i + 1 + ws.length
      · rw [if_pos hin, if_pos (by simp only [List.length_cons]; omega)]
        have : k - i = (k - (i + 1)) + 1 := by omega
        rw [this]
        simp
      · rw [if_neg hin, if_neg (by simp only [List.length_cons]; omega)]

lemma filter_offdiag_diagTriples (ws : List Weight) (i : ℕ) :
    ((diagTriples i ws).filter fun e => decide (e.1 ≠ e.2.1)) = [] := by
  induction ws generalizing i with
  | nil => rfl
  | cons w ws ih =>
    simp only [diagTriples, List.filter_cons]
    rw [if_neg (by simp)]
    exact ih (i + 1)

lemma diagonal_loadWeightedFlag (f : FlagFile)
    (h : ∀ e ∈ f.edgeLines, e.1 ≠ e.2.1) :
    (loadWeightedFlag f).diagonal = f.vertexLine := by
  unfold CooMatrix.diagonal loadWeightedFlag
  rw [entries_ofEntries]
  simp only [CooMatrix.ofEntries, Nat.min_self]
  have hcongr : ∀ k ∈ List.range f.vertexLine.length,
      ((((diagTriples 0 f.vertexLine ++ f.edgeLines).filter fun e =>
        decide (e.1 = k ∧ e.2.1 = k)).map fun e => e.2.2).sum) =
      f.vertexLine.getD k 0 := by
    intro k hk
    rw [List.mem_range] at hk
    rw [List.filter_append, filter_diag_diagTriples,
      if_pos (by simpa using hk)]
    have hedge : (f.edgeLines.filter fun e =>
        decide (e.1 = k ∧ e.2.1 = k)) = [] := by
      rw [List.filter_eq_nil_iff]
      intro e he
      have := h e he
      simp only [decide_eq_true_eq]
      rintro ⟨h1, h2⟩
      exact this (h1.trans h2.symm)
    rw [hedge]
    simp
  rw [List.map_congr_left hcongr, map_getD_range]

lemma edgeLines_save_loadWeightedFlag (f : FlagFile)
    (h : ∀ e ∈ f.edgeLines, e.1 ≠ e.2.1) :
    ((loadWeightedFlag f).entries.filter fun e => decide (e.1 ≠ e.2.1)) =
      f.edgeLines := by
  unfold loadWeightedFlag
  rw [entries_ofEntries, List.filter_append, filter_offdiag_diagTriples,
    List.nil_append, List.filter_eq_self.mpr]
  intro e he
  simpa using h e he

lemma sorted_cellPairs (n : ℕ) :
    List.Pairwise pairLexLt (cellPairs n n) := by
  unfold cellPairs
  rw [List.pairwise_flatMap]
  constructor
  · intro i _
    rw [List.pairwise_map]
    exact (List.pairwise_lt_range n).imp fun h => Or.inr ⟨rfl, h⟩
  · apply (List.pairwise_lt_range n).imp
    intro i1 i2 h x hx y hy
    obtain ⟨j1, -, rfl⟩ := List.mem_map.mp hx
    obtain ⟨j2, -, rfl⟩ := List.mem_map.mp hy
    exact Or.inl h

lemma nodup_of_pairwise_pairLexLt {l : List (ℕ × ℕ)}
    (h : List.Pairwise pairLexLt l) : l.Nodup :=
  h.imp fun hab => by
    intro heq
    subst heq
    rcases hab with h1 | ⟨-, h2⟩
    · exact lt_irrefl _ h1
    · exact lt_irrefl _ h2

/-- A row-major-sorted list of cells inside the grid is recovered exactly
by filtering the grid for membership in it. -/
lemma filter_mem_cellPairs_eq (n : ℕ) (l : List (ℕ × ℕ))
    (hsub : ∀ p ∈ l, p.1 < n ∧ p.2 < n)
    (hsort : List.Pairwise pairLexLt l) :
    ((cellPairs n n).filter fun p => decide (p ∈ l)) = l := by
  haveI : IsAntisymm (ℕ × ℕ) pairLexLt := ⟨by
    intro a b hab hba
    rcases hab with h1 | ⟨h1, h1'⟩ <;> rcases hba with h2 | ⟨h2, h2'⟩ <;>
      exfalso <;> omega⟩
  apply List.eq_of_perm_of_sorted (r := pairLexLt)
  · apply List.perm_of_nodup_nodup_toFinset_eq
    · exact List.Nodup.filter _ (nodup_of_pairwise_pairLexLt
        (sorted_cellPairs n))
    · exact nodup_of_pairwise_pairLexLt hsort
    · ext p
      simp only [List.mem_toFinset, List.mem_filter, decide_eq_true_eq]
      constructor
      · rintro ⟨-, h2⟩
        exact h2
      · intro hp
        exact ⟨(mem_cellPairs n n p).mpr (hsub p hp), hp⟩
  · exact List.Sorted.filter _ (sorted_cellPairs n)
  · exact hsort

lemma cell_loadUnweightedFlagDense (f : UnweightedFlagFile) (i j : ℕ)
    (hi : i < f.numVertices) (hj : j < f.numVertices) :
    (loadUnweightedFlagDense f).cell i j =
      if (i, j) ∈ f.edgeLines then 1 else 0 := by
  show (((List.range f.numVertices).map fun i =>
    (List.range f.numVertices).map fun j =>
      if (i, j) ∈ f.edgeLines then (1 : Weight) else 0).getD i []).getD j 0 = _
  rw [getD_map_range _ _ _ hi, getD_map_range _ _ _ hj]

/-! ### Claim theorems -/

/-- C1: for every dense (ndarray) non-boolean n×n input matrix, the edge
list passed to the persistence engine contains every off-diagonal cell,
including cells holding zero, so it has exactly n·(n−1) entries; for every
sparse input matrix it contains exactly the explicitly-stored off-diagonal
entries (explicitly-stored zeros included), and entries never stored
produce no edge. -/
theorem claim_C1 :
    (∀ (impl : List String) (m : DenseMatrix) (minD : Int)
        (maxD : MaxDimArg) (dir : Bool) (filt : String) (coeff approx : Int)
        (a : EngineArgs) (w : List Warning),
      m.Wf → m.cols = m.rows → m.dtype ≠ NpDtype.boolDt →
      flagserArgs impl (.dense m) minD maxD dir filt coeff approx =
        .ok (a, w) →
      ∃ l, a.edges = .triples l ∧ l.length = m.rows * (m.rows - 1) ∧
        ∀ i j, i < m.rows → j < m.rows → i ≠ j → (i, j, m.cell i j) ∈ l) ∧
    (∀ (impl : List String) (m : CooMatrix) (minD : Int) (maxD : MaxDimArg)
        (dir : Bool) (filt : String) (coeff approx : Int) (a : EngineArgs)
        (w : List Warning),
      m.Wf →
      flagserArgs impl (.coo m) minD maxD dir filt coeff approx =
        .ok (a, w) →
      ∃ l, a.edges = .triples l ∧
        l = (m.entries.filter fun e => decide (e.1 ≠ e.2.1)) ∧
        ∀ i j v, (∀ u, (i, j, u) ∉ m.entries) → (i, j, v) ∉ l) := by
  constructor
  · intro impl m minD maxD dir filt coeff approx a w wf hsq hdt hok
    rw [flagserArgs_eq_ok impl (.dense m) minD maxD dir filt coeff approx _
      (edgesOf_dense_eq m hsq wf)] at hok
    simp only [Except.ok.injEq, Prod.mk.injEq] at hok
    obtain ⟨rfl, rfl⟩ := hok
    refine ⟨denseOffDiagTriples m, rfl,
      length_denseOffDiagTriples m hsq, ?_⟩
    intro i j hi hj hij
    exact mem_denseOffDiagTriples m i j hi (hsq ▸ hj) hij
  · intro impl m minD maxD dir filt coeff approx a w wf hok
    rw [flagserArgs_eq_ok impl (.coo m) minD maxD dir filt coeff approx _
      (edgesOf_coo_eq m wf)] at hok
    simp only [Except.ok.injEq, Prod.mk.injEq] at hok
    obtain ⟨rfl, rfl⟩ := hok
    refine ⟨_, rfl, rfl, ?_⟩
    intro i j v hnot hmem
    exact hnot v (List.mem_filter.mp hmem).1

/-- Witness for C1 at the concrete matrices `exDense` and `exCoo`. -/
theorem claim_C1_witness :
    exDense.Wf ∧ exDense.cols = exDense.rows ∧
    exDense.dtype ≠ NpDtype.boolDt ∧ exCoo.Wf ∧
    flagserArgs ["max"] (.dense exDense) 0 .inf true "max" 2 (-1) =
      .ok (exDenseArgs, []) ∧
    flagserArgs ["max"] (.coo exCoo) 0 .inf true "max" 2 (-1) =
      .ok (exCooArgs, []) ∧
    (∃ l, exDenseArgs.edges = .triples l ∧
      l.length = exDense.rows * (exDense.rows - 1) ∧
      ∀ i j, i < exDense.rows → j < exDense.rows → i ≠ j →
        (i, j, exDense.cell i j) ∈ l) ∧
    (∃ l, exCooArgs.edges = .triples l ∧
      l = (exCoo.entries.filter fun e => decide (e.1 ≠ e.2.1)) ∧
      ∀ i j v, (∀ u, (i, j, u) ∉ exCoo.entries) → (i, j, v) ∉ l) :=
  ⟨by decide, rfl, by decide, by decide, by decide, by decide,
    claim_C1.1 ["max"] exDense 0 .inf true "max" 2 (-1) exDenseArgs []
      (by decide) rfl (by decide) (by decide),
    claim_C1.2 ["max"] exCoo 0 .inf true "max" 2 (-1) exCooArgs []
      (by decide) (by decide)⟩

/-- C2: for every square input matrix, dense or sparse, the edge list
passed to the engine contains no pair whose source equals its target, and
the diagonal is delivered only through the vertex-weight vector, which has
exactly n entries taken from the matrix diagonal (0 for diagonal entries a
sparse matrix does not store). -/
theorem claim_C2 :
    (∀ (impl : List String) (m : DenseMatrix) (minD : Int)
        (maxD : MaxDimArg) (dir : Bool) (filt : String) (coeff approx : Int)
        (a : EngineArgs) (w : List Warning),
      m.Wf → m.cols = m.rows →
      flagserArgs impl (.dense m) minD maxD dir filt coeff approx =
        .ok (a, w) →
      a.vertices.length = m.rows ∧
      (∀ i, i < m.rows → a.vertices.getD i 0 = m.cell i i) ∧
      EdgeListNoSelfLoop a.edges) ∧
    (∀ (impl : List String) (m : CooMatrix) (minD : Int) (maxD : MaxDimArg)
        (dir : Bool) (filt : String) (coeff approx : Int) (a : EngineArgs)
        (w : List Warning),
      m.Wf → m.cols = m.rows →
      flagserArgs impl (.coo m) minD maxD dir filt coeff approx =
        .ok (a, w) →
      a.vertices.length = m.rows ∧
      (∀ i, i < m.rows → a.vertices.getD i 0 =
        ((m.entries.filter fun e => decide (e.1 = i ∧ e.2.1 = i)).map
          fun e => e.2.2).sum) ∧
      (∀ i, i < m.rows → (∀ u, (i, i, u) ∉ m.entries) →
        a.vertices.getD i 0 = 0) ∧
      EdgeListNoSelfLoop a.edges) := by
  constructor
  · intro impl m minD maxD dir filt coeff approx a w wf hsq hok
    rw [flagserArgs_eq_ok impl (.dense m) minD maxD dir filt coeff approx _
      (edgesOf_dense_eq m hsq wf)] at hok
    simp only [Except.ok.injEq, Prod.mk.injEq] at hok
    obtain ⟨rfl, rfl⟩ := hok
    refine ⟨?_, ?_, ?_⟩
    · show (flagVertices (.dense m)).length = m.rows
      rw [length_flagVertices_dense, hsq, Nat.min_self]
    · intro i hi
      show (DenseMatrix.diagonal m).getD i 0 = m.cell i i
      unfold DenseMatrix.diagonal
      rw [hsq, Nat.min_self, getD_map_range _ _ _ hi]
    · show EdgeListNoSelfLoop (.triples (denseOffDiagTriples m))
      intro e he
      obtain ⟨p, hp, rfl⟩ := List.mem_map.mp he
      have := (List.mem_filter.mp hp).2
      simpa using this
  · intro impl m minD maxD dir filt coeff approx a w wf hsq hok
    rw [flagserArgs_eq_ok impl (.coo m) minD maxD dir filt coeff approx _
      (edgesOf_coo_eq m wf)] at hok
    simp only [Except.ok.injEq, Prod.mk.injEq] at hok
    obtain ⟨rfl, rfl⟩ := hok
    have hdiag : ∀ i, i < m.rows →
        (flagVertices (.coo m)).getD i 0 =
        ((m.entries.filter fun e => decide (e.1 = i ∧ e.2.1 = i)).map
          fun e => e.2.2).sum := by
      intro i hi
      show (CooMatrix.diagonal m).getD i 0 = _
      unfold CooMatrix.diagonal
      rw [hsq, Nat.min_self, getD_map_range _ _ _ hi]
    refine ⟨?_, hdiag, ?_, ?_⟩
    · show (flagVertices (.coo m)).length = m.rows
      rw [length_flagVertices_coo, hsq, Nat.min_self]
    · intro i hi hnot
      rw [hdiag i hi]
      have hnil : (m.entries.filter fun e =>
          decide (e.1 = i ∧ e.2.1 = i)) = [] := by
        rw [List.filter_eq_nil_iff]
        rintro ⟨e1, e2, e3⟩ he
        simp only [decide_eq_true_eq]
        rintro ⟨h1, h2⟩
        subst h1
        subst h2
        exact hnot e3 he
      rw [hnil]
      rfl
    · show EdgeListNoSelfLoop
        (.triples (m.entries.filter fun e => decide (e.1 ≠ e.2.1)))
      intro e he
      simpa using (List.mem_filter.mp he).2

/-- Witness for C2 at the concrete matrices `exDense` and `exCoo`. -/
theorem claim_C2_witness :
    exDense.Wf ∧ exDense.cols = exDense.rows ∧ exCoo.Wf ∧
    exCoo.cols = exCoo.rows ∧
    flagserArgs ["max"] (.dense exDense) 0 .inf true "max" 2 (-1) =
      .ok (exDenseArgs, []) ∧
    flagserArgs ["max"] (.coo exCoo) 0 .inf true "max" 2 (-1) =
      .ok (exCooArgs, []) ∧
    (exDenseArgs.vertices.length = exDense.rows ∧
      (∀ i, i < exDense.rows →
        exDenseArgs.vertices.getD i 0 = exDense.cell i i) ∧
      EdgeListNoSelfLoop exDenseArgs.edges) ∧
    (exCooArgs.vertices.length = exCoo.rows ∧
      (∀ i, i < exCoo.rows → exCooArgs.vertices.getD i 0 =
        ((exCoo.entries.filter fun e => decide (e.1 = i ∧ e.2.1 = i)).map
          fun e => e.2.2).sum) ∧
      (∀ i, i < exCoo.rows → (∀ u, (i, i, u) ∉ exCoo.entries) →
        exCooArgs.vertices.getD i 0 = 0) ∧
      EdgeListNoSelfLoop exCooArgs.edges) :=
  ⟨by decide, rfl, by decide, rfl, by decide, by decide,
    claim_C2.1 ["max"] exDense 0 .inf true "max" 2 (-1) exDenseArgs []
      (by decide) rfl (by decide),
    claim_C2.2 ["max"] exCoo 0 .inf true "max" 2 (-1) exCooArgs []
      (by decide) rfl (by decide)⟩

lemma booleanSelect_cases {α : Type} (xs : List α) (mask : List Bool) :
    (∃ l, booleanSelect xs mask = .ok l) ∨
      booleanSelect xs mask = .error .indexError := by
  unfold booleanSelect
  split
  · exact Or.inl ⟨_, rfl⟩
  · exact Or.inr rfl

/-- The pairs branch of the edge extraction is dead code: since
`flag_matrix.dtype is not bool` is identically true, no input whatsoever
makes `flagser` build an edge array of two-column pairs. -/
lemma edgesOf_not_pairs (mat : FlagMatrix) (l : List (ℕ × ℕ)) :
    edgesOf mat ≠ .ok (.pairs l) := by
  cases mat with
  | dense m =>
    simp only [edgesOf, dtypeIsBuiltinBool, if_pos]
    rcases booleanSelect_cases (rowIndicesFlat m.rows m.cols)
        (eyeOffDiagMask (flagVertices (.dense m)).length) with ⟨r, hr⟩ | hr
    · rw [hr, except_ok_bind]
      rcases booleanSelect_cases (colIndicesFlat m.rows m.cols)
          (eyeOffDiagMask (flagVertices (.dense m)).length) with
        ⟨c, hc⟩ | hc
      · rw [hc, except_ok_bind]
        rcases booleanSelect_cases m.flat
            (eyeOffDiagMask (flagVertices (.dense m)).length) with
          ⟨d, hd⟩ | hd
        · rw [hd, except_ok_bind]
          intro h
          injection h with h'
          exact EdgeList.noConfusion h'
        · rw [hd, except_error_bind]
          exact fun h => Except.noConfusion h
      · rw [hc, except_error_bind]
        exact fun h => Except.noConfusion h
    · rw [hr, except_error_bind]
      exact fun h => Except.noConfusion h
  | coo m =>
    simp only [edgesOf, dtypeIsBuiltinBool, if_pos]
    rcases booleanSelect_cases m.row (cooOffDiagMask m) with ⟨r, hr⟩ | hr
    · rw [hr, except_ok_bind]
      rcases booleanSelect_cases m.col (cooOffDiagMask m) with ⟨c, hc⟩ | hc
      · rw [hc, except_ok_bind]
        rcases booleanSelect_cases m.data (cooOffDiagMask m) with
          ⟨d, hd⟩ | hd
        · rw [hd, except_ok_bind]
          intro h
          injection h with h'
          exact EdgeList.noConfusion h'
        · rw [hd, except_error_bind]
          exact fun h => Except.noConfusion h
      · rw [hc, except_error_bind]
        exact fun h => Except.noConfusion h
    · rw [hr, except_error_bind]
      exact fun h => Except.noConfusion h

/-- C3 (code bug witness): on a boolean-dtype matrix the edge array still
carries a third, weight column, because line 108 compares the numpy dtype
object with the builtin type `bool` by identity (`is not`), which is true
for every dtype; the two-column pairs branch is unreachable for every
input. -/
theorem claim_C3_boolean_dtype_eval :
    exBoolDense.dtype = NpDtype.boolDt ∧
    dtypeIsBuiltinBool exBoolDense.dtype = false ∧
    edgesOf (.dense exBoolDense) =
      .ok (.triples [(0, 1, 1), (1, 0, 1)]) ∧
    ∀ (mat : FlagMatrix) (l : List (ℕ × ℕ)),
      edgesOf mat ≠ .ok (.pairs l) :=
  ⟨rfl, rfl, by decide, edgesOf_not_pairs⟩

/-- C4: an unrecognized filtration name does not raise: the call proceeds
exactly as with the default filtration "max" (same engine arguments, same
error behaviour), after printing a warning. -/
theorem claim_C4 :
    ∀ (impl : List String) (mat : FlagMatrix) (minD : Int)
      (maxD : MaxDimArg) (dir : Bool) (filt : String) (coeff approx : Int),
    filt ∉ impl →
    ((flagserArgs impl mat minD maxD dir filt coeff approx).map
        fun p => p.1) =
      ((flagserArgs impl mat minD maxD dir "max" coeff approx).map
        fun p => p.1) ∧
    ∀ a w, flagserArgs impl mat minD maxD dir filt coeff approx =
        .ok (a, w) →
      a.filtration = "max" ∧
      w = [Warning.unrecognizedFiltration filt impl] := by
  intro impl mat minD maxD dir filt coeff approx hnot
  have hres : resolveFiltration impl filt =
      ("max", [.unrecognizedFiltration filt impl]) := by
    unfold resolveFiltration
    rw [if_neg hnot]
  have hmax : (resolveFiltration impl "max").1 = "max" := by
    unfold resolveFiltration
    split <;> rfl
  constructor
  · cases he : edgesOf mat with
    | error e =>
      rw [flagserArgs_eq_error impl mat minD maxD dir filt coeff approx e he,
        flagserArgs_eq_error impl mat minD maxD dir "max" coeff approx e he]
    | ok eL =>
      rw [flagserArgs_eq_ok impl mat minD maxD dir filt coeff approx eL he,
        flagserArgs_eq_ok impl mat minD maxD dir "max" coeff approx eL he,
        hres, hmax]
      rfl
  · intro a w h
    cases he : edgesOf mat with
    | error e =>
      rw [flagserArgs_eq_error impl mat minD maxD dir filt coeff approx e he]
        at h
      exact Except.noConfusion h
    | ok eL =>
      rw [flagserArgs_eq_ok impl mat minD maxD dir filt coeff approx eL he,
        hres] at h
      simp only [Except.ok.injEq, Prod.mk.injEq] at h
      obtain ⟨rfl, rfl⟩ := h
      exact ⟨rfl, rfl⟩

/-- Witness for C4: the unrecognized name "bogus" with the implemented
list containing "max" and "zero", on the concrete matrix `exCoo`. -/
theorem claim_C4_witness :
    ("bogus" ∉ ["max", "zero"]) ∧
    flagserArgs ["max", "zero"] (.coo exCoo) 0 .inf true "bogus" 2 (-1) =
      .ok (exCooArgs,
        [Warning.unrecognizedFiltration "bogus" ["max", "zero"]]) ∧
    (((flagserArgs ["max", "zero"] (.coo exCoo) 0 .inf true "bogus" 2
          (-1)).map fun p => p.1) =
        ((flagserArgs ["max", "zero"] (.coo exCoo) 0 .inf true "max" 2
          (-1)).map fun p => p.1) ∧
      ∀ a w, flagserArgs ["max", "zero"] (.coo exCoo) 0 .inf true "bogus" 2
          (-1) = .ok (a, w) →
        a.filtration = "max" ∧
        w = [Warning.unrecognizedFiltration "bogus" ["max", "zero"]]) :=
  ⟨by decide, by decide,
    claim_C4 ["max", "zero"] (.coo exCoo) 0 .inf true "bogus" 2 (-1)
      (by decide)⟩

/-- C5 (counterexample): a non-square sparse matrix does not make flagser
raise `InvalidInputError`; the engine is invoked on it. -/
theorem claim_C5_counterexample :
    exCooNonSquare.rows ≠ exCooNonSquare.cols ∧
    flagserArgs ["max"] (.coo exCooNonSquare) 0 .inf true "max" 2 (-1) =
      .ok (exCooNonSquareArgs, []) ∧
    flagserArgs ["max"] (.coo exCooNonSquare) 0 .inf true "max" 2 (-1) ≠
      .error PyError.invalidInputError := by
  decide

/-- C5 (amended): flagser performs no squareness validation of its own.  A
well-formed sparse matrix of any shape is passed on to the engine with no
error raised; a non-square dense matrix with both dimensions positive is
rejected before the engine call, but by numpy's IndexError for a
mismatched boolean mask, not by an `InvalidInputError`. -/
theorem claim_C5 :
    (∀ (impl : List String) (m : CooMatrix) (minD : Int) (maxD : MaxDimArg)
        (dir : Bool) (filt : String) (coeff approx : Int),
      m.Wf →
      ∃ a w, flagserArgs impl (.coo m) minD maxD dir filt coeff approx =
        .ok (a, w)) ∧
    (∀ (impl : List String) (m : DenseMatrix) (minD : Int)
        (maxD : MaxDimArg) (dir : Bool) (filt : String)
        (coeff approx : Int),
      m.rows ≠ m.cols → 0 < m.rows → 0 < m.cols →
      flagserArgs impl (.dense m) minD maxD dir filt coeff approx =
        .error PyError.indexError) := by
  constructor
  · intro impl m minD maxD dir filt coeff approx wf
    exact ⟨_, _, flagserArgs_eq_ok impl (.coo m) minD maxD dir filt coeff
      approx _ (edgesOf_coo_eq m wf)⟩
  · intro impl m minD maxD dir filt coeff approx hne h1 h2
    exact flagserArgs_eq_error impl (.dense m) minD maxD dir filt coeff
      approx _ (edgesOf_dense_error m hne h1 h2)

/-- Witness for C5 at the concrete non-square matrices. -/
theorem claim_C5_witness :
    exCooNonSquare.Wf ∧
    (∃ a w, flagserArgs ["max"] (.coo exCooNonSquare) 0 .inf true "max" 2
      (-1) = .ok (a, w)) ∧
    exDenseNonSquare.rows ≠ exDenseNonSquare.cols ∧
    0 < exDenseNonSquare.rows ∧ 0 < exDenseNonSquare.cols ∧
    flagserArgs ["max"] (.dense exDenseNonSquare) 0 .inf true "max" 2
      (-1) = .error PyError.indexError :=
  ⟨by decide,
    claim_C5.1 ["max"] exCooNonSquare 0 .inf true "max" 2 (-1) (by decide),
    by decide, by decide, by decide,
    claim_C5.2 ["max"] exDenseNonSquare 0 .inf true "max" 2 (-1)
      (by decide) (by decide) (by decide)⟩

/-- C6 (counterexample): with `max_dimension = -1` (an integer, not
`np.inf`) the engine also receives `-1`, so "the engine receives −1
exactly when the argument is np.inf" fails in the only-if direction. -/
theorem claim_C6_counterexample :
    flagserArgs ["max"] (.coo exCoo) 0 (.fin (-1)) true "max" 2 (-1) =
      .ok (exCooArgs, []) ∧
    exCooArgs.maxDimension = -1 ∧
    MaxDimArg.fin (-1) ≠ MaxDimArg.inf := by
  decide

/-- C6 (amended): the engine receives the sentinel −1 when
`max_dimension = np.inf`, and receives the argument unchanged otherwise
(so an argument of −1 also delivers −1). -/
theorem claim_C6 :
    ∀ (impl : List String) (mat : FlagMatrix) (minD : Int)
      (maxD : MaxDimArg) (dir : Bool) (filt : String) (coeff approx : Int)
      (a : EngineArgs) (w : List Warning),
    flagserArgs impl mat minD maxD dir filt coeff approx = .ok (a, w) →
    (maxD = .inf → a.maxDimension = -1) ∧
    (∀ k, maxD = .fin k → a.maxDimension = k) := by
  intro impl mat minD maxD dir filt coeff approx a w h
  cases he : edgesOf mat with
  | error e =>
    rw [flagserArgs_eq_error impl mat minD maxD dir filt coeff approx e he]
      at h
    exact Except.noConfusion h
  | ok eL =>
    rw [flagserArgs_eq_ok impl mat minD maxD dir filt coeff approx eL he]
      at h
    simp only [Except.ok.injEq, Prod.mk.injEq] at h
    obtain ⟨rfl, rfl⟩ := h
    constructor
    · rintro rfl
      rfl
    · rintro k rfl
      rfl

/-- Witness for C6 at `exCoo` with the default `np.inf` argument. -/
theorem claim_C6_witness :
    flagserArgs ["max"] (.coo exCoo) 0 .inf true "max" 2 (-1) =
      .ok (exCooArgs, []) ∧
    ((MaxDimArg.inf = MaxDimArg.inf → exCooArgs.maxDimension = -1) ∧
      (∀ k, MaxDimArg.inf = MaxDimArg.fin k →
        exCooArgs.maxDimension = k)) :=
  ⟨by decide, claim_C6 ["max"] (.coo exCoo) 0 .inf true "max" 2 (-1)
    exCooArgs [] (by decide)⟩

/-- C7: `approximation = 0` is normalized to the exact sentinel −1 before
the engine is invoked, so the whole call behaves identically to
`approximation = -1`, whatever the engine computes. -/
theorem claim_C7 :
    ∀ (A : Type) (engine : EngineArgs → A) (impl : List String)
      (mat : FlagMatrix) (minD : Int) (maxD : MaxDimArg) (dir : Bool)
      (filt : String) (coeff : Int),
    flagser engine impl mat minD maxD dir filt coeff 0 =
      flagser engine impl mat minD maxD dir filt coeff (-1) := by
  intro A engine impl mat minD maxD dir filt coeff
  rfl

/-- C8: saving the adjacency matrix loaded from a weighted flag file
reproduces the file (same vertex weights, same edge lines), and loading
the saved file again yields the same adjacency matrix: the save/load
round-trip loses no index or weight information.  Weights are modelled
exactly (rationals), so equality up to floating-point tolerance is exact
equality. -/
theorem claim_C8 :
    ∀ f : FlagFile, (∀ e ∈ f.edgeLines, e.1 ≠ e.2.1) →
    saveWeightedFlag (loadWeightedFlag f) = f ∧
    loadWeightedFlag (saveWeightedFlag (loadWeightedFlag f)) =
      loadWeightedFlag f := by
  intro f h
  have h1 : saveWeightedFlag (loadWeightedFlag f) = f := by
    obtain ⟨v, es⟩ := f
    unfold saveWeightedFlag
    rw [diagonal_loadWeightedFlag ⟨v, es⟩ h,
      edgeLines_save_loadWeightedFlag ⟨v, es⟩ h]
  exact ⟨h1, by rw [h1]⟩

/-- Witness for C8 at the concrete flag file `exFlagFile`. -/
theorem claim_C8_witness :
    (∀ e ∈ exFlagFile.edgeLines, e.1 ≠ e.2.1) ∧
    (saveWeightedFlag (loadWeightedFlag exFlagFile) = exFlagFile ∧
      loadWeightedFlag (saveWeightedFlag (loadWeightedFlag exFlagFile)) =
        loadWeightedFlag exFlagFile) :=
  ⟨by decide, claim_C8 exFlagFile (by decide)⟩

/-- C9: loading a flag file densely and loading it as coo, then extracting
the unweighted graph, give identical vertex vectors and identical edge
lists, provided the file lists valid off-diagonal edges in row-major
order. -/
theorem claim_C9 :
    ∀ f : UnweightedFlagFile,
    (∀ e ∈ f.edgeLines, e.1 < f.numVertices ∧ e.2 < f.numVertices ∧
      e.1 ≠ e.2) →
    List.Pairwise pairLexLt f.edgeLines →
    extractUnweightedGraph (.dense (loadUnweightedFlagDense f)) =
      extractUnweightedGraph (.coo (loadUnweightedFlagCoo f)) := by
  intro f hvalid hsort
  have hcoo_edges : ((loadUnweightedFlagCoo f).entries.filter fun e =>
      decide (e.1 ≠ e.2.1) && decide (e.2.2 ≠ 0)).map
        (fun e => (e.1, e.2.1)) = f.edgeLines := by
    rw [show (loadUnweightedFlagCoo f).entries =
        f.edgeLines.map fun e => (e.1, e.2, (1 : Weight)) from
      entries_ofEntries _ _ _ _]
    rw [List.filter_map]
    have hkeep : List.filter ((fun e : ℕ × ℕ × Weight =>
        decide (e.1 ≠ e.2.1) && decide (e.2.2 ≠ 0)) ∘
          fun e : ℕ × ℕ => (e.1, e.2, (1 : Weight))) f.edgeLines =
        f.edgeLines := by
      apply List.filter_eq_self.mpr
      intro e he
      have hne := (hvalid e he).2.2
      simp [Function.comp_def, hne]
    rw [hkeep, List.map_map]
    simp [Function.comp_def, Prod.mk.eta]
  have hdense_edges : ((cellPairs f.numVertices f.numVertices).filter
      fun p => decide (p.1 ≠ p.2) &&
        decide ((loadUnweightedFlagDense f).cell p.1 p.2 ≠ 0)) =
      f.edgeLines := by
    rw [List.filter_congr (q := fun p => decide (p ∈ f.edgeLines)) ?_]
    · exact filter_mem_cellPairs_eq f.numVertices f.edgeLines
        (fun p hp => ⟨(hvalid p hp).1, (hvalid p hp).2.1⟩) hsort
    · intro p hp
      obtain ⟨hp1, hp2⟩ := (mem_cellPairs _ _ p).mp hp
      rw [cell_loadUnweightedFlagDense f p.1 p.2 hp1 hp2]
      by_cases hmem : (p.1, p.2) ∈ f.edgeLines
      · have hne : p.1 ≠ p.2 := (hvalid _ hmem).2.2
        simp [hmem, hne, Prod.mk.eta]
      · simp [hmem, Prod.mk.eta]
  show (List.range (loadUnweightedFlagDense f).rows, _) =
    (List.range (loadUnweightedFlagCoo f).rows, _)
  rw [Prod.mk.injEq]
  refine ⟨rfl, ?_⟩
  show ((List.range (loadUnweightedFlagDense f).rows).flatMap fun i =>
      (List.range (loadUnweightedFlagDense f).cols).map fun j =>
        (i, j)).filter (fun p => decide (p.1 ≠ p.2) &&
        decide ((loadUnweightedFlagDense f).cell p.1 p.2 ≠ 0)) = _
  rw [show (loadUnweightedFlagDense f).rows = f.numVertices from rfl,
    show (loadUnweightedFlagDense f).cols = f.numVertices from rfl]
  rw [show ((List.range f.numVertices).flatMap fun i =>
      (List.range f.numVertices).map fun j => (i, j)) =
    cellPairs f.numVertices f.numVertices from rfl]
  rw [hdense_edges, ← hcoo_edges]

/-- Witness for C9 at the concrete unweighted flag file `exUFlagFile`. -/
theorem claim_C9_witness :
    (∀ e ∈ exUFlagFile.edgeLines, e.1 < exUFlagFile.numVertices ∧
      e.2 < exUFlagFile.numVertices ∧ e.1 ≠ e.2) ∧
    List.Pairwise pairLexLt exUFlagFile.edgeLines ∧
    extractUnweightedGraph (.dense (loadUnweightedFlagDense exUFlagFile)) =
      extractUnweightedGraph (.coo (loadUnweightedFlagCoo exUFlagFile)) :=
  ⟨by decide, by decide, claim_C9 exUFlagFile (by decide) (by decide)⟩

/-- C10: flagser never mutates its input matrix: threading the matrix
through every primitive the call applies to it (each modelled with its
numpy/scipy read-only or fresh-allocation semantics), the matrix after the
call is the matrix before it, and the threaded computation returns exactly
what `flagserArgs` returns. -/
theorem claim_C10 :
    ∀ (impl : List String) (mat : FlagMatrix) (minD : Int)
      (maxD : MaxDimArg) (dir : Bool) (filt : String) (coeff approx : Int),
    (flagserArgsTrace impl mat minD maxD dir filt coeff approx).2 = mat ∧
    (flagserArgsTrace impl mat minD maxD dir filt coeff approx).1 =
      flagserArgs impl mat minD maxD dir filt coeff approx := by
  intro impl mat minD maxD dir filt coeff approx
  constructor
  · cases he : edgesOf mat <;>
      simp [flagserArgsTrace, diagonalCopySt, edgesOfSt, he]
  · cases he : edgesOf mat with
    | error e =>
      rw [flagserArgs_eq_error impl mat minD maxD dir filt coeff approx e he]
      simp [flagserArgsTrace, diagonalCopySt, edgesOfSt, he]
    | ok eL =>
      rw [flagserArgs_eq_ok impl mat minD maxD dir filt coeff approx eL he]
      simp [flagserArgsTrace, diagonalCopySt, edgesOfSt, he]

end Pyflagser
